import Mathlib

set_option maxRecDepth 100000

/-!
Verification of the LKQL-to-LuaJIT bytecode compiler backend
(repository lkql_jit: modules src/lkqlc/ir.rs, src/lkqlc/bc.rs,
src/lkqlc/env.rs, src/lkqlc.rs, src/lkqlc/nodes/fun_call.rs).

The Rust code is shallowly embedded: machine integers (u8/u16/u64) are
modelled as Nat with explicit `% 2^w` where the source can wrap, i16 as
Int with range side conditions in the theorems, Vec/HashMap/HashSet as
lists and association lists (insert prepends, lookup takes the first
match, which is exactly the overwrite semantics of the hash map), and
every Rust panic/unwrap as an `Option` whose `none` is the panic.
-/

namespace Lkqlc

/-! ## Constants from src/lkqlc/bc.rs -/

/-- src/lkqlc/bc.rs line 82: prototype flag bit for "has nested function". -/
def FLAG_P_HAS_CHILD : Nat := 0b00000001

/-- src/lkqlc/bc.rs line 88: the jump displacement bias. -/
def JUMP_BIASING : Nat := 0x8000

/-- Opcode constants used by the modelled code paths (src/lkqlc/bc.rs). -/
def MOV : Nat := 0x12
def KSTR : Nat := 0x27
def KPRI : Nat := 0x2B
def UGET : Nat := 0x2D
def GGET : Nat := 0x36
def CALL : Nat := 0x42
def RET0 : Nat := 0x4B
def RET1 : Nat := 0x4C
def JMP : Nat := 0x58

/-! ## The IR operand model, src/lkqlc/ir.rs -/

/-- src/lkqlc/ir.rs enum Primitive. -/
inductive Primitive where
  | Nil
  | False
  | True
deriving DecidableEq, Repr

/-- src/lkqlc/ir.rs enum IRArg.  Payload widths in the source: Slot and
Upvalue carry u8, Literal and the five constant-pool references carry u16,
SignedLiteral carries i16 (modelled as Int, theorems carry the range),
TNewLiteral carries (u8, u16), Jump carries the u64 label. -/
inductive IRArg where
  | None
  | Slot (slot : Nat)
  | Upvalue (uv : Nat)
  | Literal (lit : Nat)
  | SignedLiteral (slit : Int)
  | Prim (prim : Primitive)
  | TNewLiteral (hash : Nat) (tab : Nat)
  | Num (num : Nat)
  | Str (str : Nat)
  | Tab (tab : Nat)
  | Func (func : Nat)
  | CData (cdata : Nat)
  | Jump (label : Nat)
  | JumpLiteral (offset : Nat)
deriving DecidableEq, Repr

namespace IRArg

/-- src/lkqlc/ir.rs lines 95-136, `IRArg::as_8`.  `none` models the panics. -/
def as_8 : IRArg → Option Nat
  | .None => some 0
  | .Slot slot => some slot
  | .Upvalue uv => some uv
  | .Literal lit => if lit > 0xFF then none else some lit
  | .SignedLiteral _ => none
  | .Prim prim =>
    match prim with
    | .Nil => some 0
    | .False => some 1
    | .True => some 2
  | .TNewLiteral _ _ => none
  | .Num num => if num > 0xFF then none else some num
  | .Str str => if str > 0xFF then none else some str
  | .Tab tab => if tab > 0xFF then none else some tab
  | .Func func => if func > 0xFF then none else some func
  | .CData cdata => if cdata > 0xFF then none else some cdata
  | .Jump _ => none
  | .JumpLiteral _ => none

/-- src/lkqlc/ir.rs lines 138-163, `IRArg::as_16`.
`slit as u16` reinterprets the i16 bit pattern: `(slit % 65536).toNat`.
`((hash as u16) << 11) | (tab & 0x7FF)` keeps the low 16 bits of the
shift (Rust u16 shl drops the bits shifted out) and masks tab to 11 bits. -/
def as_16 : IRArg → Option Nat
  | .None => some 0
  | .Slot slot => some slot
  | .Upvalue uv => some uv
  | .Literal lit => some lit
  | .SignedLiteral slit => some (slit % 65536).toNat
  | .Prim prim =>
    match prim with
    | .Nil => some 0
    | .False => some 1
    | .True => some 2
  | .TNewLiteral hash tab => some ((((hash <<< 11) % 65536) ||| (tab &&& 0x7FF)))
  | .Num num => some num
  | .Str str => some str
  | .Tab tab => some tab
  | .Func func => some func
  | .CData cdata => some cdata
  | .Jump _ => none
  | .JumpLiteral offset => some offset

/-- Constructor discriminant, used to state per-shape exactness of the
narrowing functions. -/
def shape : IRArg → Nat
  | .None => 0
  | .Slot _ => 1
  | .Upvalue _ => 2
  | .Literal _ => 3
  | .SignedLiteral _ => 4
  | .Prim _ => 5
  | .TNewLiteral _ _ => 6
  | .Num _ => 7
  | .Str _ => 8
  | .Tab _ => 9
  | .Func _ => 10
  | .CData _ => 11
  | .Jump _ => 12
  | .JumpLiteral _ => 13

/-- The payload ranges enforced by the Rust types (u8 / u16 / i16 / u64). -/
def inRange : IRArg → Prop
  | .None => True
  | .Slot slot => slot < 256
  | .Upvalue uv => uv < 256
  | .Literal lit => lit < 65536
  | .SignedLiteral slit => -32768 ≤ slit ∧ slit < 32768
  | .Prim _ => True
  | .TNewLiteral hash tab => hash < 256 ∧ tab < 65536
  | .Num num => num < 65536
  | .Str str => str < 65536
  | .Tab tab => tab < 65536
  | .Func func => func < 65536
  | .CData cdata => cdata < 65536
  | .Jump _ => True
  | .JumpLiteral offset => offset < 65536

end IRArg

/-! ## Bytecode instructions, src/lkqlc/bc.rs -/

/-- src/lkqlc/bc.rs struct BCInstABC (fields are u8). -/
structure BCInstABC where
  op_code : Nat
  a : Nat
  b : Nat
  c : Nat
deriving DecidableEq, Repr

/-- src/lkqlc/bc.rs struct BCInstAD (op_code and a are u8, d is u16). -/
structure BCInstAD where
  op_code : Nat
  a : Nat
  d : Nat
deriving DecidableEq, Repr

/-- src/lkqlc/bc.rs enum BCInstruction. -/
inductive BCInstruction where
  | Abc (inst : BCInstABC)
  | Ad (inst : BCInstAD)
deriving DecidableEq, Repr

/-! ## IR instructions, src/lkqlc/ir.rs -/

/-- src/lkqlc/ir.rs struct IRInstABC. -/
structure IRInstABC where
  label : Nat
  op_code : Nat
  a : IRArg
  b : IRArg
  c : IRArg
deriving DecidableEq, Repr

/-- src/lkqlc/ir.rs struct IRInstAD. -/
structure IRInstAD where
  label : Nat
  op_code : Nat
  a : IRArg
  d : IRArg
deriving DecidableEq, Repr

/-- `IRInstABC::new` sets the label to 0. -/
def IRInstABC.new (op_code : Nat) (a b c : IRArg) : IRInstABC :=
  { label := 0, op_code := op_code, a := a, b := b, c := c }

/-- `IRInstAD::new` sets the label to 0. -/
def IRInstAD.new (op_code : Nat) (a d : IRArg) : IRInstAD :=
  { label := 0, op_code := op_code, a := a, d := d }

/-- src/lkqlc/ir.rs enum IRInstruction. -/
inductive IRInstruction where
  | ABC (inst : IRInstABC)
  | AD (inst : IRInstAD)
deriving DecidableEq, Repr

/-- The label carried by an instruction (both variants have the field). -/
def IRInstruction.label : IRInstruction → Nat
  | .ABC inst => inst.label
  | .AD inst => inst.label

/-- src/lkqlc/ir.rs lines 19-28, `IRInstruction::to_bc_instruction`;
`none` models the operand-narrowing panics. -/
def IRInstruction.to_bc_instruction : IRInstruction → Option BCInstruction
  | .ABC inst => do
    let a ← inst.a.as_8
    let b ← inst.b.as_8
    let c ← inst.c.as_8
    pure (.Abc { op_code := inst.op_code, a := a, b := b, c := c })
  | .AD inst => do
    let a ← inst.a.as_8
    let d ← inst.d.as_16
    pure (.Ad { op_code := inst.op_code, a := a, d := d })

/-- src/lkqlc/ir.rs lines 243-258, `get_label_position`: index of the first
instruction carrying the label. -/
def get_label_position (ir : List IRInstruction) (label : Nat) : Option Nat :=
  ir.findIdx? (fun inst => inst.label == label)

/-- One iteration of the loop body of `process_jumps` (src/lkqlc/ir.rs
lines 203-240) at index `i`.  The source computes `current_pos = i + 1`
but then never uses it: the offset is
`(target_pos as isize) - (target_pos as isize) + JUMP_BIASING`.
`none` models the two panics (label not found, u16::try_from failure). -/
def process_jumps_step (ir : List IRInstruction) (i : Nat) : Option (List IRInstruction) :=
  match ir[i]? with
  | some (.AD ad_inst) =>
    match ad_inst.d with
    | .Jump label =>
      match get_label_position ir label with
      | some target_pos =>
        let offset : Int := ((target_pos : Int) - (target_pos : Int)) + (JUMP_BIASING : Int)
        if 0 ≤ offset ∧ offset < 65536 then
          some (ir.set i (.AD { ad_inst with d := .JumpLiteral offset.toNat }))
        else none
      | none => none
    | _ => some ir
  | _ => some ir

/-- src/lkqlc/ir.rs lines 203-240, `process_jumps`: the loop over all
indices, threading the mutated vector. -/
def process_jumps (ir : List IRInstruction) : Option (List IRInstruction) :=
  (List.range ir.length).foldlM process_jumps_step ir

/-- src/lkqlc/ir.rs lines 189-200, `process_ir`: resolve jumps in place,
then lower every instruction; returns the resolved IR (the source mutates
its argument) together with the lowered code. -/
def process_ir (ir : List IRInstruction) : Option (List IRInstruction × List BCInstruction) := do
  let ir2 ← process_jumps ir
  let code ← ir2.mapM IRInstruction.to_bc_instruction
  pure (ir2, code)

/-! ## Constant pools and prototypes, src/lkqlc/bc.rs -/

/-- src/lkqlc/bc.rs struct KStr: the bytes of the string constant. -/
structure KStr where
  content : String
deriving DecidableEq, Repr

/-- src/lkqlc/bc.rs enum ComplexConstant.  Only the String variant is ever
produced by the compiler (env.rs line 454); Table and Complex have no
producer and are omitted, I64/U64/Child are kept for the shape of the type. -/
inductive ComplexConstant where
  | KString (kstr : KStr)
  | I64 (int : Int)
  | U64 (int : Nat)
  | Child
deriving DecidableEq, Repr

/-- src/lkqlc/bc.rs enum NumericConstant.  The float payload of the Num
variant is modelled by its u64 bit pattern; no modelled path builds one. -/
inductive NumericConstant where
  | KInt (int : Int)
  | KNumBits (bits : Nat)
deriving DecidableEq, Repr

/-- src/lkqlc/bc.rs struct Prototype. -/
structure Prototype where
  flags : Nat
  arg_count : Nat
  frame_size : Nat
  instructions : List BCInstruction
  upval_references : List Nat
  complex_constants : List ComplexConstant
  numeric_constants : List NumericConstant
deriving DecidableEq, Repr

/-- src/lkqlc/bc.rs lines 343-353, `Prototype::new`. -/
def Prototype.new (arg_count : Nat) : Prototype :=
  { flags := 0, arg_count := arg_count, frame_size := 0, instructions := [],
    upval_references := [], complex_constants := [], numeric_constants := [] }

/-- src/lkqlc/bc.rs struct Header. -/
structure Header where
  magic : List Nat
  version : Nat
  flags : Nat
deriving DecidableEq, Repr

/-- src/lkqlc/bc.rs struct Program. -/
structure Program where
  header : Header
  prototypes : List Prototype
deriving DecidableEq, Repr

/-- src/lkqlc/bc.rs lines 267-272, `Program::new` (header contents as in
`Header::new`: magic 1B 4C 4A, version 2, stripped and FFI flags). -/
def Program.new : Program :=
  { header := { magic := [0x1B, 0x4C, 0x4A], version := 0x02, flags := 0x0 ||| 0b10 ||| 0b100 },
    prototypes := [] }

/-! ## Hash map / hash set model

HashMap<String, u8> is an association list: insert prepends and lookup
returns the first hit, which observes exactly the map's overwrite
semantics.  HashSet<String> is a list with membership. -/

/-- Lookup in the association-list model of HashMap. -/
def map_get (m : List (String × Nat)) (key : String) : Option Nat :=
  (m.find? (fun p => p.1 == key)).map (fun p => p.2)

/-- Insert in the association-list model of HashMap (overwrites old binding). -/
def map_insert (m : List (String × Nat)) (key : String) (val : Nat) : List (String × Nat) :=
  (key, val) :: m

/-! ## The lexical environments, src/lkqlc/env.rs -/

/-- src/lkqlc/env.rs enum LocalResult. -/
inductive LocalResult where
  | Slot (slot : Nat)
  | Name (name : String)
  | NotFound
deriving DecidableEq, Repr

/-- src/lkqlc/env.rs enum UpvalueResult. -/
inductive UpvalueResult where
  | Slot (slot : Nat)
  | Name (name : String)
  | NotFound
deriving DecidableEq, Repr

/-- src/lkqlc/env.rs lines 484-486, `name_with_depth`:
`"_".repeat(depth) + name`. -/
def name_with_depth (name : String) (depth : Nat) : String :=
  String.mk (List.replicate depth '_') ++ name

/-- src/lkqlc/env.rs struct LocalEnv.  `occupied_slot` is the
`[bool; 256]` bitmap (every constructor in the source builds it with
length 256; the loops run over `occupied_slot.len()`). -/
structure LocalEnv where
  depth : Nat
  occupied_slot : List Bool
  local_var_stack : List (List (String × Nat))
  local_var_overflow_stack : List (List String)
  string_constant_cache : List (String × Nat)
  expr_result_slot : Option Nat
  return_slot : Option Nat
  upvalues : List (String × Nat)
  frame_size : Nat
  label_counter : Nat
  has_child : Bool
  ir : List IRInstruction
  prototype : Prototype
deriving DecidableEq, Repr

namespace LocalEnv

/-- src/lkqlc/env.rs lines 252-274, `LocalEnv::new`. -/
def new (depth : Nat) (arg_count : Nat) : LocalEnv :=
  { depth := depth,
    occupied_slot := List.replicate 256 false,
    local_var_stack := [[]],
    local_var_overflow_stack := [[]],
    string_constant_cache := [],
    expr_result_slot := Option.none,
    return_slot := Option.none,
    upvalues := [],
    frame_size := 0,
    label_counter := 0,
    has_child := false,
    ir := [],
    prototype := Prototype.new arg_count }

/-- Index of the first `false` entry of the bitmap — the scan
`for i in 0..self.occupied_slot.len()` of `get_new_slot`. -/
def find_free : List Bool → Option Nat
  | [] => Option.none
  | occupied :: rest =>
    if occupied then (find_free rest).map (fun i => i + 1) else some 0

/-- src/lkqlc/env.rs lines 321-332, `LocalEnv::get_new_slot`: take the
first free slot, mark it occupied, and stretch the frame size (the source
tests `slot >= self.frame_size` and then sets it to `slot + 1`). -/
def get_new_slot (e : LocalEnv) : Option (Nat × LocalEnv) :=
  match find_free e.occupied_slot with
  | some slot =>
    some (slot, { e with occupied_slot := e.occupied_slot.set slot true,
                         frame_size := if e.frame_size ≤ slot then slot + 1 else e.frame_size })
  | Option.none => Option.none

/-- src/lkqlc/env.rs lines 335-337, `LocalEnv::free_slot`. -/
def free_slot (e : LocalEnv) (slot : Nat) : LocalEnv :=
  { e with occupied_slot := e.occupied_slot.set slot false }

/-- src/lkqlc/env.rs lines 340-361, `LocalEnv::add_local`.  A failed
allocation falls back to slot 255 (`unwrap_or(255)`) with no bitmap
change; a slot at or above 220 is freed again and the variable is spilled
under its depth-derived name into the overflow set.  `none` models the
`first_mut().unwrap()` panics on empty stacks (never empty in the source's
constructions). -/
def add_local (e : LocalEnv) (name : String) : Option (LocalResult × LocalEnv) :=
  let (slot, e1) :=
    match get_new_slot e with
    | some (slot, e') => (slot, e')
    | Option.none => (255, e)
  if 220 ≤ slot then
    let e2 := free_slot e1 slot
    match e2.local_var_overflow_stack with
    | [] => Option.none
    | overflow :: rest =>
      let depth_name := name_with_depth name e2.depth
      some (.Name depth_name,
            { e2 with local_var_overflow_stack := (depth_name :: overflow) :: rest })
  else
    match e1.local_var_stack with
    | [] => Option.none
    | local_var :: rest =>
      some (.Slot slot, { e1 with local_var_stack := map_insert local_var name slot :: rest })

/-- The loop of `get_local` (src/lkqlc/env.rs lines 364-381): walk the
pseudo-environment stacks in lockstep; a hit in the slot map wins over the
overflow set of the same level.  Note the source checks the overflow set
for the ORIGINAL name but answers with the depth-decorated name.  The two
stacks always have equal length (every push/pop is paired in the source);
a missing overflow level, where the source would panic on `unwrap`, is
answered NotFound. -/
def get_local_go (name depth_name : String) :
    List (List (String × Nat)) → List (List String) → LocalResult
  | [], _ => .NotFound
  | local_var :: ms, overflows =>
    match map_get local_var name with
    | some slot => .Slot slot
    | Option.none =>
      match overflows with
      | [] => .NotFound
      | overflow :: rest =>
        if name ∈ overflow then .Name depth_name else get_local_go name depth_name ms rest

/-- src/lkqlc/env.rs lines 364-381, `LocalEnv::get_local`. -/
def get_local (e : LocalEnv) (name : String) : LocalResult :=
  get_local_go name (name_with_depth name e.depth) e.local_var_stack e.local_var_overflow_stack

/-- src/lkqlc/env.rs lines 384-389, `LocalEnv::add_upvalue`: push the
reference, cache `name -> index` where the index is
`(upval_references.len() - 1) as u8`. -/
def add_upvalue (e : LocalEnv) (reference : Nat) (name : String) : Nat × LocalEnv :=
  let refs := e.prototype.upval_references ++ [reference]
  let index := (refs.length - 1) % 256
  (index, { e with prototype := { e.prototype with upval_references := refs },
                   upvalues := map_insert e.upvalues name index })

/-- src/lkqlc/env.rs lines 392-398, `LocalEnv::get_upvalue`. -/
def get_upvalue (e : LocalEnv) (name : String) : UpvalueResult :=
  match map_get e.upvalues name with
  | some index => .Slot index
  | Option.none => .NotFound

/-- src/lkqlc/env.rs lines 401-403, `LocalEnv::new_tmp` (`expect` on slot
exhaustion is the `none`). -/
def new_tmp (e : LocalEnv) : Option (Nat × LocalEnv) :=
  get_new_slot e

/-- The scan of `new_tmps` (src/lkqlc/env.rs lines 406-427): walk the
bitmap with the current index and the start of the current free run;
an occupied slot resets the run.  Returns the pair (start, end index)
when the run reaches length n.  Used only under the claims' hypothesis
`1 ≤ n`: for n = 0 the source's u8 subtraction `n - 1` underflows
(an arithmetic panic in debug builds). -/
def new_tmps_go (n : Nat) : List Bool → Nat → Option Nat → Option (Nat × Nat)
  | [], _, _ => Option.none
  | occupied :: rest, i, start =>
    if occupied then
      new_tmps_go n rest (i + 1) Option.none
    else
      let st := start.getD i
      if i - st = n - 1 then some (st, i)
      else new_tmps_go n rest (i + 1) (some st)

/-- src/lkqlc/env.rs lines 406-427, `LocalEnv::new_tmps`: find n
contiguous free slots and return `(start..end+1).collect()`; the final
panic is the `none`.  The receiver is `&mut self` but the body never
writes a field, so the threaded environment comes back as it went in. -/
def new_tmps (e : LocalEnv) (n : Nat) : Option (List Nat × LocalEnv) :=
  match new_tmps_go n e.occupied_slot 0 Option.none with
  | some (st, last) => some (List.range' st (last + 1 - st), e)
  | Option.none => Option.none

/-- src/lkqlc/env.rs lines 430-432, `LocalEnv::free_tmp`. -/
def free_tmp (e : LocalEnv) (slot : Nat) : LocalEnv :=
  free_slot e slot

/-- src/lkqlc/env.rs lines 435-438, `LocalEnv::new_label` (u64 counter). -/
def new_label (e : LocalEnv) : Nat × LocalEnv :=
  let counter := (e.label_counter + 1) % 2 ^ 64
  (counter, { e with label_counter := counter })

/-- src/lkqlc/env.rs lines 441-443, `LocalEnv::add_instruction`. -/
def add_instruction (e : LocalEnv) (inst : IRInstruction) : LocalEnv :=
  { e with ir := e.ir ++ [inst] }

/-- src/lkqlc/env.rs lines 446-462, `LocalEnv::add_string_constant`:
cache hit returns the cached index; otherwise the constant is inserted at
the FRONT of the complex pool and the returned index is
`(complex_constants.len() - 1) as u16` after the insertion. -/
def add_string_constant (e : LocalEnv) (string : String) : Nat × LocalEnv :=
  match map_get e.string_constant_cache string with
  | some index => (index, e)
  | Option.none =>
    let constant := ComplexConstant.KString { content := string }
    let pool := constant :: e.prototype.complex_constants
    let res := (pool.length - 1) % 65536
    (res, { e with prototype := { e.prototype with complex_constants := pool },
                   string_constant_cache := map_insert e.string_constant_cache string res })

/-- src/lkqlc/env.rs lines 277-299, `LocalEnv::finalize`: append the
terminal return (RET0 when no return slot was set, RET1 from it
otherwise), run `process_ir` on the accumulated IR (mutating it in
place), freeze the frame size, append the lowered code to the prototype,
and set the has-child prototype flag. -/
def finalize (e : LocalEnv) : Option LocalEnv := do
  let ir1 := e.ir ++ [match e.return_slot with
    | Option.none => .AD (IRInstAD.new RET0 (.Slot 0) (.Literal 1))
    | some slot => .AD (IRInstAD.new RET1 (.Slot slot) (.Literal 2))]
  let (ir2, code) ← process_ir ir1
  let proto1 := { e.prototype with frame_size := e.frame_size,
                                   instructions := e.prototype.instructions ++ code }
  let proto2 := if e.has_child then { proto1 with flags := proto1.flags ||| FLAG_P_HAS_CHILD }
                else proto1
  pure { e with ir := ir2, prototype := proto2 }

end LocalEnv

/-! ## The compilation environment, src/lkqlc/env.rs lines 16-223

The source keeps the local environments in a `Vec`, reads the "current"
environment with `first()` (index 0, the head here), pushes new
environments with `push` (the back) and pops them with `pop` (the back).
The model reproduces those access points literally. -/

/-- src/lkqlc/env.rs struct CompilationEnv. -/
structure CompilationEnv where
  bytecode : Program
  global_var : List String
  local_env_stack : List LocalEnv
  module_name : String
deriving DecidableEq, Repr

namespace CompilationEnv

/-- src/lkqlc/env.rs lines 27-39, `CompilationEnv::new` followed by
`add_builtins` (src/lkqlc/builtins.rs: the one builtin is "print"). -/
def new : CompilationEnv :=
  { bytecode := Program.new,
    global_var := ["print"],
    local_env_stack := [LocalEnv.new 0 0],
    module_name := "" }

/-- src/lkqlc/env.rs lines 49-52, `CompilationEnv::open_env`: the new
local environment gets `first().depth` — the depth of the head
environment, NOT incremented — and is pushed at the BACK of the vector. -/
def open_env (c : CompilationEnv) (arg_count : Nat) : Option CompilationEnv :=
  match c.local_env_stack with
  | [] => Option.none
  | first :: _ =>
    some { c with local_env_stack := c.local_env_stack ++ [LocalEnv.new first.depth arg_count] }

/-- src/lkqlc/env.rs lines 55-65, `CompilationEnv::close_env`: pop the
BACK environment, finalize it, push its prototype into the program, and
set `has_child` on the HEAD of what remains (`first_mut()`). -/
def close_env (c : CompilationEnv) : Option CompilationEnv := do
  let to_close ← c.local_env_stack.getLast?
  let rest := c.local_env_stack.dropLast
  let closed ← to_close.finalize
  let c1 := { c with
    bytecode := { c.bytecode with prototypes := c.bytecode.prototypes ++ [closed.prototype] },
    local_env_stack := rest }
  match rest with
  | [] => pure c1
  | first :: tail => pure { c1 with local_env_stack := { first with has_child := true } :: tail }

/-- src/lkqlc/env.rs lines 80-82, `CompilationEnv::add_global`. -/
def add_global (c : CompilationEnv) (name : String) : CompilationEnv :=
  if name ∈ c.global_var then c else { c with global_var := name :: c.global_var }

/-- src/lkqlc/env.rs lines 85-87, `CompilationEnv::get_global`. -/
def get_global (c : CompilationEnv) (name : String) : Bool :=
  name ∈ c.global_var

/-- src/lkqlc/env.rs lines 90-93, `CompilationEnv::add_local` (delegates
to the head environment; `none` is the `first_mut().unwrap()` panic). -/
def add_local (c : CompilationEnv) (name : String) : Option (LocalResult × CompilationEnv) := do
  match c.local_env_stack with
  | [] => Option.none
  | first :: tail =>
    let (res, first') ← first.add_local name
    pure (res, { c with local_env_stack := first' :: tail })

/-- src/lkqlc/env.rs lines 96-99, `CompilationEnv::get_local`. -/
def get_local (c : CompilationEnv) (name : String) : Option LocalResult :=
  c.local_env_stack.head?.map (fun first => first.get_local name)

/-- src/lkqlc/env.rs lines 108-154, `lookup_uv`, written structurally:
the call at index `depth` sees the stack suffix starting at `depth`, its
"upper environment" is the next element, and the recursive call at
`depth + 1` walks the tail.  The head of an empty suffix, where the
source would panic on `get(depth).unwrap()`, is answered NotFound (the
entry point always supplies at least one environment). -/
def lookup_uv_go (name : String) : List LocalEnv → UpvalueResult × List LocalEnv
  | [] => (.NotFound, [])
  | local_env :: rest =>
    match local_env.get_upvalue name with
    | .Slot slot => (.Slot slot, local_env :: rest)
    | _ =>
      match rest with
      | [] => (.NotFound, local_env :: rest)
      | upper_env :: _ =>
        match upper_env.get_local name with
        | .Slot slot =>
          let (index, local_env') := local_env.add_upvalue (0xC000 ||| slot) name
          (.Slot index, local_env' :: rest)
        | .Name n => (.Name n, local_env :: rest)
        | .NotFound =>
          match lookup_uv_go name rest with
          | (.Slot slot, rest') =>
            let (index, local_env') := local_env.add_upvalue slot name
            (.Slot index, local_env' :: rest')
          | (upper_res, rest') => (upper_res, local_env :: rest')

/-- src/lkqlc/env.rs lines 102-104, `CompilationEnv::get_upvalue` =
`lookup_uv(name, 0)`. -/
def get_upvalue (c : CompilationEnv) (name : String) : UpvalueResult × CompilationEnv :=
  let (res, stack) := lookup_uv_go name c.local_env_stack
  (res, { c with local_env_stack := stack })

/-- src/lkqlc/env.rs lines 157-159, `CompilationEnv::get_expr_slot`
(`none` is the `first().unwrap()` panic on an empty stack). -/
def get_expr_slot (c : CompilationEnv) : Option (Option Nat) :=
  c.local_env_stack.head?.map (fun first => first.expr_result_slot)

/-- src/lkqlc/env.rs lines 162-164, `CompilationEnv::set_expr_slot`. -/
def set_expr_slot (c : CompilationEnv) (slot : Option Nat) : Option CompilationEnv :=
  match c.local_env_stack with
  | [] => Option.none
  | first :: tail =>
    some { c with local_env_stack := { first with expr_result_slot := slot } :: tail }

/-- src/lkqlc/env.rs lines 177-180 and 183-186, `new_tmp` / `new_tmps`
on the head environment. -/
def new_tmps (c : CompilationEnv) (n : Nat) : Option (List Nat × CompilationEnv) := do
  match c.local_env_stack with
  | [] => Option.none
  | first :: tail =>
    let (slots, first') ← first.new_tmps n
    pure (slots, { c with local_env_stack := first' :: tail })

/-- src/lkqlc/env.rs lines 189-192, `CompilationEnv::free_tmp`. -/
def free_tmp (c : CompilationEnv) (slot : Nat) : Option CompilationEnv :=
  match c.local_env_stack with
  | [] => Option.none
  | first :: tail => some { c with local_env_stack := first.free_tmp slot :: tail }

/-- src/lkqlc/env.rs lines 195-200, `CompilationEnv::free_tmps`. -/
def free_tmps (c : CompilationEnv) (slots : List Nat) : Option CompilationEnv :=
  match c.local_env_stack with
  | [] => Option.none
  | first :: tail =>
    some { c with local_env_stack := (slots.foldl LocalEnv.free_tmp first) :: tail }

/-- src/lkqlc/env.rs lines 211-214, `CompilationEnv::add_instruction`. -/
def add_instruction (c : CompilationEnv) (inst : IRInstruction) : Option CompilationEnv :=
  match c.local_env_stack with
  | [] => Option.none
  | first :: tail => some { c with local_env_stack := first.add_instruction inst :: tail }

/-- src/lkqlc/env.rs lines 219-222, `CompilationEnv::add_string_constant`. -/
def add_string_constant (c : CompilationEnv) (string : String) : Option (Nat × CompilationEnv) :=
  match c.local_env_stack with
  | [] => Option.none
  | first :: tail =>
    let (index, first') := first.add_string_constant string
    some (index, { c with local_env_stack := first' :: tail })

end CompilationEnv

/-! ## Variable loading and the function-call node,
src/lkqlc.rs lines 237-304 and src/lkqlc/nodes/fun_call.rs -/

/-- src/errors.rs struct LKQLError. -/
structure LKQLError where
  message : String
deriving DecidableEq, Repr

/-- src/lkqlc.rs lines 237-304, `load_var_copy`: resolve `name` as local,
then upvalue, then global, emitting the matching load instruction into
the expression slot; returns `false` — with no instruction emitted — when
the name is in none of the three.  `none` models the
`get_expr_slot().unwrap()` panics. -/
def load_var_copy (name : String) (c : CompilationEnv) : Option (Bool × CompilationEnv) := do
  match ← c.get_local name with
  | .Slot slot =>
    let some expr_slot := (← c.get_expr_slot) | Option.none
    let c1 ← c.add_instruction (.AD (IRInstAD.new MOV (.Slot expr_slot) (.Slot slot)))
    pure (true, c1)
  | .Name n =>
    let (name_index, c1) ← c.add_string_constant n
    let some expr_slot := (← c1.get_expr_slot) | Option.none
    let c2 ← c1.add_instruction (.AD (IRInstAD.new GGET (.Slot expr_slot) (.Str name_index)))
    pure (true, c2)
  | .NotFound =>
    let (uv_res, c1) := c.get_upvalue name
    match uv_res with
    | .Slot uv_slot =>
      let some expr_slot := (← c1.get_expr_slot) | Option.none
      let c2 ← c1.add_instruction (.AD (IRInstAD.new UGET (.Slot expr_slot) (.Upvalue uv_slot)))
      pure (true, c2)
    | .Name n =>
      let (name_index, c2) ← c1.add_string_constant n
      let some expr_slot := (← c2.get_expr_slot) | Option.none
      let c3 ← c2.add_instruction (.AD (IRInstAD.new GGET (.Slot expr_slot) (.Str name_index)))
      pure (true, c3)
    | .NotFound =>
      if c1.get_global name then
        let (name_index, c2) ← c1.add_string_constant name
        let some expr_slot := (← c2.get_expr_slot) | Option.none
        let c3 ← c2.add_instruction (.AD (IRInstAD.new GGET (.Slot expr_slot) (.Str name_index)))
        pure (true, c3)
      else
        pure (false, c1)

/-- src/lkqlc/nodes/fun_call.rs lines 14-65, `fun_call::compile`.  The
AST accesses are parameters: `fun_name` is the callee's source text and
`compile_args` stands for the `compile_node` call on the argument list.
The boolean returned by `load_var_copy` is DISCARDED by the source
(line 28: a bare `load_var_copy(&*fun_name, env);` statement), so an
unresolved callee does not stop the compilation. -/
def fun_call_compile (fun_name : String)
    (compile_args : CompilationEnv → Option (Except LKQLError CompilationEnv))
    (c : CompilationEnv) : Option (Except LKQLError CompilationEnv) := do
  let (slots, c1) ← c.new_tmps 2
  let res_slot ← c1.get_expr_slot
  let fun_slot ← slots[0]?
  let arg_slot ← slots[1]?
  let c2 ← c1.set_expr_slot (some fun_slot)
  let (_, c3) ← load_var_copy fun_name c2
  let c4 ← c3.set_expr_slot (some arg_slot)
  match ← compile_args c4 with
  | .error e => pure (.error e)
  | .ok c5 => do
    let c6 ← c5.add_instruction (.ABC (IRInstABC.new CALL (.Slot fun_slot) (.Literal 1) (.Literal 2)))
    let c7 ← match res_slot with
      | some res => c6.add_instruction (.AD (IRInstAD.new MOV (.Slot res) (.Slot fun_slot)))
      | Option.none => pure c6
    let c8 ← c7.free_tmps slots
    let c9 ← c8.set_expr_slot res_slot
    pure (.ok c9)

/-! ## Helper lemmas -/

/-- Looking up the key just inserted yields the inserted value. -/
theorem map_get_insert_self (m : List (String × Nat)) (key : String) (val : Nat) :
    map_get (map_insert m key val) key = some val := by
  simp [map_get, map_insert, List.find?]

/-- `find_free` returns the index of a free slot. -/
theorem find_free_spec (occ : List Bool) (i : Nat) (h : LocalEnv.find_free occ = some i) :
    occ[i]? = some false := by
  induction occ generalizing i with
  | nil => simp [LocalEnv.find_free] at h
  | cons b rest ih =>
    by_cases hb : b
    · simp only [LocalEnv.find_free, hb, if_true, Option.map_eq_some'] at h
      obtain ⟨j, hj, rfl⟩ := h
      simpa using ih j hj
    · simp only [LocalEnv.find_free, hb, Bool.false_eq_true, if_false, Option.some.injEq] at h
      subst h
      simp [hb]

/-- `get_new_slot` touches only the bitmap and the frame size. -/
theorem get_new_slot_frame (e : LocalEnv) (slot : Nat) (e' : LocalEnv)
    (h : e.get_new_slot = some (slot, e')) :
    e'.depth = e.depth ∧ e'.local_var_stack = e.local_var_stack ∧
    e'.local_var_overflow_stack = e.local_var_overflow_stack ∧
    e.occupied_slot[slot]? = some false := by
  unfold LocalEnv.get_new_slot at h
  cases hf : LocalEnv.find_free e.occupied_slot with
  | none => rw [hf] at h; exact absurd h (by simp)
  | some i =>
    rw [hf] at h
    simp only [Option.some.injEq, Prod.mk.injEq] at h
    obtain ⟨rfl, rfl⟩ := h
    exact ⟨rfl, rfl, rfl, find_free_spec _ _ hf⟩

/-! ## The claims -/

/-- A three-instruction body whose first instruction is an unresolved
jump (wide operand `Jump 1`) and whose third instruction carries
label 1: the jump sits at index 0, its target at index 2. -/
def jump_bug_input : List IRInstruction :=
  [.AD { label := 0, op_code := JMP, a := .Slot 0, d := .Jump 1 },
   .AD { label := 0, op_code := KPRI, a := .Slot 0, d := .Literal 2 },
   .AD { label := 1, op_code := KPRI, a := .Slot 1, d := .Literal 2 }]

/-- C2: the claim states that jump resolution replaces the unresolved
operand with (target index) - (jump index) + 0x8000; here that is
2 - 0 + 0x8000 = 0x8002.  The code, however, computes
`target_pos - target_pos + JUMP_BIASING` (src/lkqlc/ir.rs line 221:
the `current_pos` variable of line 216 is computed and never used), so
the operand becomes the bare bias 0x8000 regardless of the distance. -/
theorem claim_C2_process_jumps_bias_only :
    get_label_position jump_bug_input 1 = some 2 ∧
    process_jumps jump_bug_input =
      some [.AD { label := 0, op_code := JMP, a := .Slot 0, d := .JumpLiteral JUMP_BIASING },
            .AD { label := 0, op_code := KPRI, a := .Slot 0, d := .Literal 2 },
            .AD { label := 1, op_code := KPRI, a := .Slot 1, d := .Literal 2 }] ∧
    JUMP_BIASING ≠ 2 - 0 + JUMP_BIASING := by decide

/-- C3: compiling a call whose callee name resolves to no local, no
upvalue and no global.  `load_var_copy` itself reports the failure
(returns false, emitting nothing), but `fun_call::compile` discards the
returned boolean (src/lkqlc/nodes/fun_call.rs line 28) and the whole
call node still compiles to Ok — the failure never reaches the caller. -/
theorem claim_C3_unresolved_callee_not_surfaced :
    (load_var_copy "foo" CompilationEnv.new).map Prod.fst = some false ∧
    (fun_call_compile "foo" (fun c => some (Except.ok c)) CompilationEnv.new).map
        (fun r => match r with | .ok _ => true | .error _ => false) = some true := by decide

/-- C6: `open_env` (src/lkqlc/env.rs line 50) creates every child
environment with `first().depth` — the head's depth, never incremented —
so after opening two nested functions all three environments still have
depth 0, and a spilled local named x (declared with every slot occupied)
receives the synthesized name "x" at every nesting level: the names at
different nesting depths are identical, not distinct. -/
theorem claim_C6_depth_never_incremented :
    ((CompilationEnv.new.open_env 0).bind (fun c => c.open_env 0)).map
        (fun c => c.local_env_stack.map LocalEnv.depth) = some [0, 0, 0] ∧
    ((CompilationEnv.new.open_env 0).bind (fun c => c.open_env 0)).map
        (fun c => c.local_env_stack.map (fun e =>
          (LocalEnv.add_local { e with occupied_slot := List.replicate 256 true } "x").map
            (fun p => p.1)))
      = some [some (.Name "x"), some (.Name "x"), some (.Name "x")] := by decide

/-- C7: open two nested scopes (stack in push order: root, f1, f2) and
close the innermost.  `close_env` pops f2 from the back but sets
`has_child` on the HEAD of the vector (src/lkqlc/env.rs line 63), so the
remaining stack reads [true, false]: the root is marked and f2's actual
parent f1 is not.  Closing f1 next therefore finalizes it WITHOUT the
has-nested-function prototype flag, although a child scope was closed
inside it: the flag bits of the two emitted prototypes are [0, 0]. -/
theorem claim_C7_parent_not_marked :
    (((CompilationEnv.new.open_env 0).bind (fun c => c.open_env 0)).bind
        CompilationEnv.close_env).map (fun c => c.local_env_stack.map LocalEnv.has_child)
      = some [true, false] ∧
    ((((CompilationEnv.new.open_env 0).bind (fun c => c.open_env 0)).bind
        CompilationEnv.close_env).bind CompilationEnv.close_env).map
        (fun c => c.bytecode.prototypes.map (fun p => p.flags &&& FLAG_P_HAS_CHILD))
      = some [0, 0] := by decide

/-- C9 counterexample: the 16-bit narrowing of the table-new composite
operand masks the table part to its low 11 bits (`tab & 0x7FF`,
src/lkqlc/ir.rs line 153): the two distinct in-range operands
TNewLiteral 0 2048 and TNewLiteral 0 0 both narrow to `some 0` — the
high bit of 2048 is silently dropped instead of being a hard failure. -/
theorem claim_C9_counterexample :
    IRArg.as_16 (.TNewLiteral 0 2048) = some 0 ∧
    IRArg.as_16 (.TNewLiteral 0 0) = some 0 ∧
    IRArg.TNewLiteral 0 2048 ≠ IRArg.TNewLiteral 0 0 := by decide

/-- C5: interning a string that the current function has not interned
yet ("the first call") grows the complex constant pool by exactly one
entry; a further call with the same string returns the very index the
first call returned and leaves the whole environment — in particular the
pool and its size — unchanged, so every later call repeats that. -/
theorem claim_C5_string_interning (e : LocalEnv) (s : String)
    (hfirst : map_get e.string_constant_cache s = Option.none) :
    (e.add_string_constant s).2.prototype.complex_constants.length
        = e.prototype.complex_constants.length + 1 ∧
    (e.add_string_constant s).2.add_string_constant s
        = ((e.add_string_constant s).1, (e.add_string_constant s).2) := by
  have hp : e.add_string_constant s =
      (((ComplexConstant.KString { content := s } :: e.prototype.complex_constants).length - 1)
          % 65536,
       { e with
           prototype := { e.prototype with complex_constants :=
             (ComplexConstant.KString { content := s }) :: e.prototype.complex_constants },
           string_constant_cache := map_insert e.string_constant_cache s
             ((((ComplexConstant.KString { content := s })
                 :: e.prototype.complex_constants).length - 1) % 65536) }) := by
    rw [LocalEnv.add_string_constant, hfirst]
  rw [hp]
  constructor
  · simp
  · simp only [LocalEnv.add_string_constant, map_get_insert_self]

/-- C8: declaring a local never aborts: whatever the bitmap looks like —
including fully occupied, where `get_new_slot` fails and `unwrap_or`
falls back to slot 255 — `add_local` answers, and the answer is either a
register slot strictly below the reservation threshold 220 or the
spilled depth-derived name.  (The stack-nonemptiness hypotheses only
rule out the `first_mut().unwrap()` on stacks the source never builds:
every constructor starts both stacks with one level.) -/
theorem claim_C8_add_local_total (e : LocalEnv) (name : String)
    (hlv : e.local_var_stack ≠ []) (hov : e.local_var_overflow_stack ≠ []) :
    ∃ res e', e.add_local name = some (res, e') ∧
      ((∃ slot, res = .Slot slot ∧ slot < 220) ∨
       res = .Name (name_with_depth name e.depth)) := by
  unfold LocalEnv.add_local
  cases hslot : e.get_new_slot with
  | none =>
    simp only [hslot]
    have : (220 : Nat) ≤ 255 := by omega
    rw [if_pos this]
    obtain ⟨overflow, rest, hov'⟩ : ∃ ov rest, e.local_var_overflow_stack = ov :: rest := by
      cases h : e.local_var_overflow_stack with
      | nil => exact absurd h hov
      | cons ov rest => exact ⟨ov, rest, rfl⟩
    simp only [LocalEnv.free_slot, hov']
    exact ⟨_, _, rfl, Or.inr rfl⟩
  | some p =>
    obtain ⟨slot, e1⟩ := p
    obtain ⟨hdep, hlv1, hov1, _⟩ := get_new_slot_frame e slot e1 hslot
    simp only [hslot]
    by_cases hbig : 220 ≤ slot
    · rw [if_pos hbig]
      obtain ⟨overflow, rest, hov'⟩ : ∃ ov rest, e1.local_var_overflow_stack = ov :: rest := by
        cases h : e1.local_var_overflow_stack with
        | nil => rw [h] at hov1; exact absurd hov1.symm hov
        | cons ov rest => exact ⟨ov, rest, rfl⟩
      simp only [LocalEnv.free_slot, hov']
      refine ⟨_, _, rfl, Or.inr ?_⟩
      simp [LocalEnv.free_slot, hdep]
    · rw [if_neg hbig]
      obtain ⟨local_var, rest, hlv'⟩ : ∃ m rest, e1.local_var_stack = m :: rest := by
        cases h : e1.local_var_stack with
        | nil => rw [h] at hlv1; exact absurd hlv1.symm hlv
        | cons m rest => exact ⟨m, rest, rfl⟩
      simp only [hlv']
      exact ⟨_, _, rfl, Or.inl ⟨slot, rfl, by omega⟩⟩

/-- C5 witness: the theorem applied to a fresh environment and the
string "hi", whose cache lookup is empty. -/
theorem claim_C5_witness :
    map_get (LocalEnv.new 0 0).string_constant_cache "hi" = Option.none ∧
    (((LocalEnv.new 0 0).add_string_constant "hi").2.prototype.complex_constants.length
        = (LocalEnv.new 0 0).prototype.complex_constants.length + 1 ∧
     ((LocalEnv.new 0 0).add_string_constant "hi").2.add_string_constant "hi"
        = (((LocalEnv.new 0 0).add_string_constant "hi").1,
           ((LocalEnv.new 0 0).add_string_constant "hi").2)) :=
  ⟨by decide, claim_C5_string_interning (LocalEnv.new 0 0) "hi" (by decide)⟩

/-- The fully-occupied environment for the C8 witness. -/
def full_env : LocalEnv :=
  { LocalEnv.new 0 0 with occupied_slot := List.replicate 256 true }

/-- C8 witness: the theorem applied to the environment whose 256 slots
are all occupied; the declaration spills to the synthesized name. -/
theorem claim_C8_witness :
    full_env.local_var_stack ≠ [] ∧ full_env.local_var_overflow_stack ≠ [] ∧
    (∃ res e', full_env.add_local "x" = some (res, e') ∧
      ((∃ slot, res = .Slot slot ∧ slot < 220) ∨
       res = .Name (name_with_depth "x" full_env.depth))) :=
  ⟨by decide, by decide, claim_C8_add_local_total full_env "x" (by decide) (by decide)⟩

/-- Specification of the `new_tmps` scan: when the scan of the suffix of
the bitmap starting at index `i` (with `start` recording the begin of the
current free run, every bitmap entry from it up to `i` exclusive being
free) succeeds with the run (st, last), then the run has the requested
span and every bitmap entry from st to last inclusive is free. -/
theorem new_tmps_go_spec (n : Nat) (occ : List Bool) :
    ∀ (l : List Bool) (i : Nat) (start : Option Nat),
      (∀ j, l[j]? = occ[i + j]?) →
      (∀ st, start = some st → st ≤ i ∧ ∀ k, st ≤ k → k < i → occ[k]? = some false) →
      ∀ st last, LocalEnv.new_tmps_go n l i start = some (st, last) →
        st ≤ last ∧ last - st = n - 1 ∧ ∀ k, st ≤ k → k ≤ last → occ[k]? = some false := by
  intro l
  induction l with
  | nil =>
    intro i start _ _ st last h
    simp [LocalEnv.new_tmps_go] at h
  | cons b rest ih =>
    intro i start hsuff hstart st last h
    have hhead : occ[i]? = some b := by
      have := hsuff 0
      simpa using this.symm
    have hsuff' : ∀ j, rest[j]? = occ[i + 1 + j]? := by
      intro j
      have := hsuff (j + 1)
      simpa [Nat.add_assoc, Nat.add_comm 1 j] using this
    by_cases hb : b
    · rw [LocalEnv.new_tmps_go, if_pos hb] at h
      exact ih (i + 1) Option.none hsuff' (by simp) st last h
    · rw [LocalEnv.new_tmps_go, if_neg hb] at h
      have hfree : occ[i]? = some false := by
        rw [hhead]; simp [Bool.not_eq_true] at hb; rw [hb]
      have hst0 : (start.getD i) ≤ i ∧
          ∀ k, (start.getD i) ≤ k → k < i → occ[k]? = some false := by
        cases start with
        | none => exact ⟨Nat.le_refl i, fun k hk1 hk2 => absurd (Nat.lt_of_le_of_lt hk1 hk2)
            (Nat.lt_irrefl i)⟩
        | some st' => simpa using hstart st' rfl
      by_cases hdone : i - start.getD i = n - 1
      · rw [if_pos hdone] at h
        obtain ⟨h1, h2⟩ : start.getD i = st ∧ i = last := by
          simpa [Prod.ext_iff] using h
        rw [← h1, ← h2]
        refine ⟨hst0.1, hdone, fun k hk1 hk2 => ?_⟩
        rcases Nat.lt_or_ge k i with hlt | hge
        · exact hst0.2 k hk1 hlt
        · have : k = i := Nat.le_antisymm hk2 hge
          rw [this]; exact hfree
      · rw [if_neg hdone] at h
        refine ih (i + 1) (some (start.getD i)) hsuff' ?_ st last h
        intro st' hst'
        obtain rfl : start.getD i = st' := by simpa using hst'
        refine ⟨Nat.le_succ_of_le hst0.1, fun k hk1 hk2 => ?_⟩
        rcases Nat.lt_or_ge k i with hlt | hge
        · exact hst0.2 k hk1 hlt
        · have : k = i := Nat.le_antisymm (Nat.lt_succ_iff.mp hk2) hge
          rw [this]; exact hfree

/-- An element read out of `List.range' s n` at position j is s + j. -/
theorem range'_getElem?_eq (s n j a : Nat) (h : (List.range' s n)[j]? = some a) :
    a = s + j := by
  induction n generalizing s j a with
  | zero => simp [List.range'] at h
  | succ n ih =>
    rw [show List.range' s (n + 1) = s :: List.range' (s + 1) n from rfl] at h
    cases j with
    | zero => simp at h; omega
    | succ j =>
      simp only [List.getElem?_cons_succ] at h
      have := ih (s + 1) j a h
      omega

/-- C4: whenever `new_tmps n` (n at least 1; for n = 0 the source's u8
`n - 1` underflows) succeeds, its result is the run `st, st+1, ..,
st+n-1` for some st: exactly n indices, each exactly one above the
previous, and every one of them free in the bitmap as it was immediately
before the call; there is no shorter or non-contiguous success. -/
theorem claim_C4_new_tmps_contiguous_run (e : LocalEnv) (n : Nat) (hn : 1 ≤ n)
    (l : List Nat) (e' : LocalEnv) (h : e.new_tmps n = some (l, e')) :
    (∃ st, l = List.range' st n) ∧
    l.length = n ∧
    (∀ j a b, l[j]? = some a → l[j + 1]? = some b → b = a + 1) ∧
    (∀ s ∈ l, e.occupied_slot[s]? = some false) := by
  unfold LocalEnv.new_tmps at h
  cases hgo : LocalEnv.new_tmps_go n e.occupied_slot 0 Option.none with
  | none => rw [hgo] at h; exact absurd h (by simp)
  | some p =>
    obtain ⟨st, last⟩ := p
    rw [hgo] at h
    simp only [Option.some.injEq, Prod.mk.injEq] at h
    obtain ⟨rfl, rfl⟩ := h
    obtain ⟨hle, hspan, hfree⟩ :=
      new_tmps_go_spec n e.occupied_slot e.occupied_slot 0 Option.none
        (fun j => by simp) (by simp) st last hgo
    have hlen : last + 1 - st = n := by omega
    rw [hlen]
    refine ⟨⟨st, rfl⟩, List.length_range' .., fun j a b ha hb => ?_, fun s hs => ?_⟩
    · have hva := range'_getElem?_eq st n j a ha
      have hvb := range'_getElem?_eq st n (j + 1) b hb
      omega
    · have := List.mem_range'_1.mp hs
      exact hfree s this.1 (by omega)

/-- An environment with a mixed bitmap for the `new_tmps` witnesses:
slots 0 and 3 occupied, the rest of the 7-entry prefix free. -/
def tmps_env : LocalEnv :=
  { LocalEnv.new 0 0 with
      occupied_slot := [true, false, false, true, false, false, false] }

/-- C4 witness: the theorem applied to a concrete bitmap and n = 2;
the scan returns the run 1, 2. -/
theorem claim_C4_witness :
    1 ≤ 2 ∧ tmps_env.new_tmps 2 = some ([1, 2], tmps_env) ∧
    ((∃ st, [1, 2] = List.range' st 2) ∧
     ([1, 2] : List Nat).length = 2 ∧
     (∀ j a b, ([1, 2] : List Nat)[j]? = some a → ([1, 2] : List Nat)[j + 1]? = some b →
        b = a + 1) ∧
     (∀ s ∈ ([1, 2] : List Nat), tmps_env.occupied_slot[s]? = some false)) :=
  ⟨by decide, by decide,
   claim_C4_new_tmps_contiguous_run tmps_env 2 (by decide) [1, 2] tmps_env (by decide)⟩

/-- C10: `new_tmps` takes the environment by mutable reference but never
writes a field: the bitmap and the frame size after the call are the ones
from before it, and a second call on the returned environment yields the
very same run again (nothing was reserved).  `new_tmp`, in contrast,
marks the returned slot occupied — it was free before, is occupied
after — and stretches the frame size when the slot reaches it. -/
theorem claim_C10_new_tmps_no_effect :
    (∀ (e : LocalEnv) (n : Nat) (l : List Nat) (e' : LocalEnv),
        e.new_tmps n = some (l, e') →
        e'.occupied_slot = e.occupied_slot ∧ e'.frame_size = e.frame_size ∧
        e'.new_tmps n = some (l, e')) ∧
    (∀ (e : LocalEnv) (s : Nat) (e' : LocalEnv),
        e.new_tmp = some (s, e') →
        e.occupied_slot[s]? = some false ∧
        e'.occupied_slot = e.occupied_slot.set s true ∧
        e'.frame_size = if e.frame_size ≤ s then s + 1 else e.frame_size) := by
  constructor
  · intro e n l e' h
    unfold LocalEnv.new_tmps at h ⊢
    cases hgo : LocalEnv.new_tmps_go n e.occupied_slot 0 Option.none with
    | none => rw [hgo] at h; exact absurd h (by simp)
    | some p =>
      obtain ⟨st, last⟩ := p
      rw [hgo] at h
      simp only [Option.some.injEq, Prod.mk.injEq] at h
      obtain ⟨rfl, rfl⟩ := h
      exact ⟨rfl, rfl, by rw [hgo]⟩
  · intro e s e' h
    unfold LocalEnv.new_tmp LocalEnv.get_new_slot at h
    cases hf : LocalEnv.find_free e.occupied_slot with
    | none => rw [hf] at h; exact absurd h (by simp)
    | some i =>
      rw [hf] at h
      simp only [Option.some.injEq, Prod.mk.injEq] at h
      obtain ⟨rfl, rfl⟩ := h
      exact ⟨find_free_spec _ _ hf, rfl, rfl⟩

/-- C10 witness: the first half of the theorem applied to the concrete
bitmap: the run 1, 2 comes back with the environment untouched, and
asking again yields the same run. -/
theorem claim_C10_witness :
    tmps_env.new_tmps 2 = some ([1, 2], tmps_env) ∧
    (tmps_env.occupied_slot = tmps_env.occupied_slot ∧
     tmps_env.frame_size = tmps_env.frame_size ∧
     tmps_env.new_tmps 2 = some ([1, 2], tmps_env)) :=
  ⟨by decide, claim_C10_new_tmps_no_effect.1 tmps_env 2 [1, 2] tmps_env (by decide)⟩

/-- C1: a variable that is a plain local (slot s) of the environment two
levels up (the stack is current :: parent :: grandparent :: deeper, as
`lookup_uv` indexes it), not previously captured at the two inner levels
and not a local of the parent.  The lookup succeeds with an upvalue
index; the reference lists afterwards show exactly one new entry at the
innermost level (an outer-upvalue reference, the parent's new index) and
exactly one new entry at the intermediate level (an outer-register
reference, 0xC000 OR s), with the grandparent and everything deeper
untouched; and running the same lookup again on the resulting stack
returns the same index and the very same stack — no entry is added
anywhere the second time. -/
theorem claim_C1_upvalue_chain (e0 e1 e2 : LocalEnv) (rest : List LocalEnv)
    (name : String) (s : Nat)
    (h0 : map_get e0.upvalues name = Option.none)
    (h1 : map_get e1.upvalues name = Option.none)
    (h2 : e1.get_local name = .NotFound)
    (h3 : e2.get_local name = .Slot s) :
    (CompilationEnv.lookup_uv_go name (e0 :: e1 :: e2 :: rest)).1
        = .Slot (e0.prototype.upval_references.length % 256) ∧
    ((CompilationEnv.lookup_uv_go name (e0 :: e1 :: e2 :: rest)).2.map
        (fun e => e.prototype.upval_references))
      = (e0.prototype.upval_references ++ [e1.prototype.upval_references.length % 256])
        :: (e1.prototype.upval_references ++ [0xC000 ||| s])
        :: (e2 :: rest).map (fun e => e.prototype.upval_references) ∧
    CompilationEnv.lookup_uv_go name (CompilationEnv.lookup_uv_go name (e0 :: e1 :: e2 :: rest)).2
      = ((CompilationEnv.lookup_uv_go name (e0 :: e1 :: e2 :: rest)).1,
         (CompilationEnv.lookup_uv_go name (e0 :: e1 :: e2 :: rest)).2) := by
  have hup0 : e0.get_upvalue name = .NotFound := by
    unfold LocalEnv.get_upvalue; rw [h0]
  have hup1 : e1.get_upvalue name = .NotFound := by
    unfold LocalEnv.get_upvalue; rw [h1]
  have hmain : CompilationEnv.lookup_uv_go name (e0 :: e1 :: e2 :: rest)
      = (.Slot (e0.prototype.upval_references.length % 256),
         { e0 with
             prototype := { e0.prototype with upval_references :=
               e0.prototype.upval_references
                 ++ [e1.prototype.upval_references.length % 256] },
             upvalues := map_insert e0.upvalues name
               (e0.prototype.upval_references.length % 256) }
         :: { e1 with
             prototype := { e1.prototype with upval_references :=
               e1.prototype.upval_references ++ [0xC000 ||| s] },
             upvalues := map_insert e1.upvalues name
               (e1.prototype.upval_references.length % 256) }
         :: e2 :: rest) := by
    simp only [CompilationEnv.lookup_uv_go, hup0, hup1, h2, h3, LocalEnv.add_upvalue,
      List.length_append, List.length_cons, List.length_nil, Nat.add_sub_cancel]
  rw [hmain]
  refine ⟨rfl, by simp, ?_⟩
  simp only [CompilationEnv.lookup_uv_go, LocalEnv.get_upvalue, map_get_insert_self]

/-- Innermost environment of the C1 witness (fresh). -/
def uv_env0 : LocalEnv := LocalEnv.new 0 0

/-- Intermediate environment of the C1 witness (fresh, x is not one of
its locals). -/
def uv_env1 : LocalEnv := LocalEnv.new 0 0

/-- Outer environment of the C1 witness: x is a plain local in slot 3. -/
def uv_env2 : LocalEnv :=
  { LocalEnv.new 0 0 with local_var_stack := [[("x", 3)]] }

/-- C1 witness: the theorem applied to the concrete three-level stack
where x lives in slot 3 of the outermost environment. -/
theorem claim_C1_witness :
    map_get uv_env0.upvalues "x" = Option.none ∧
    map_get uv_env1.upvalues "x" = Option.none ∧
    uv_env1.get_local "x" = .NotFound ∧
    uv_env2.get_local "x" = .Slot 3 ∧
    ((CompilationEnv.lookup_uv_go "x" [uv_env0, uv_env1, uv_env2]).1
        = .Slot (uv_env0.prototype.upval_references.length % 256) ∧
     ((CompilationEnv.lookup_uv_go "x" [uv_env0, uv_env1, uv_env2]).2.map
        (fun e => e.prototype.upval_references))
       = (uv_env0.prototype.upval_references
            ++ [uv_env1.prototype.upval_references.length % 256])
         :: (uv_env1.prototype.upval_references ++ [0xC000 ||| 3])
         :: ([uv_env2] : List LocalEnv).map (fun e => e.prototype.upval_references) ∧
     CompilationEnv.lookup_uv_go "x"
         (CompilationEnv.lookup_uv_go "x" [uv_env0, uv_env1, uv_env2]).2
       = ((CompilationEnv.lookup_uv_go "x" [uv_env0, uv_env1, uv_env2]).1,
          (CompilationEnv.lookup_uv_go "x" [uv_env0, uv_env1, uv_env2]).2)) :=
  ⟨by decide, by decide, by decide, by decide,
   claim_C1_upvalue_chain uv_env0 uv_env1 uv_env2 [] "x" 3
     (by decide) (by decide) (by decide) (by decide)⟩

/-- Inverse of `as_8` on its success set: from the operand's shape and
the 8-bit encoding, rebuild the operand. -/
def decode8 (sh : Nat) (v : Nat) : Option IRArg :=
  if sh = 0 then some .None
  else if sh = 1 then some (.Slot v)
  else if sh = 2 then some (.Upvalue v)
  else if sh = 3 then some (.Literal v)
  else if sh = 5 then
    some (.Prim (if v = 0 then .Nil else if v = 1 then .False else .True))
  else if sh = 7 then some (.Num v)
  else if sh = 8 then some (.Str v)
  else if sh = 9 then some (.Tab v)
  else if sh = 10 then some (.Func v)
  else if sh = 11 then some (.CData v)
  else Option.none

/-- Inverse of `as_16` on its success set, except for the table-new
composite shape (6), which `as_16` does NOT encode losslessly.  The
signed literal comes back by undoing the two's-complement cast. -/
def decode16 (sh : Nat) (v : Nat) : Option IRArg :=
  if sh = 4 then
    some (.SignedLiteral (if v < 32768 then (v : Int) else (v : Int) - 65536))
  else if sh = 13 then some (.JumpLiteral v)
  else if sh = 6 then Option.none
  else decode8 sh v

/-- C9 as amended: narrowing an in-range operand is exact or a hard
failure for EVERY shape through `as_8`, and for every shape EXCEPT the
table-new composite through `as_16`: whenever narrowing succeeds, the
operand is fully recoverable from its shape and the encoding, so no
information was lost.  (The excluded shape is genuinely lossy — see the
counterexample — and the claim's universal statement fails only there.) -/
theorem claim_C9_narrowing_exact (a : IRArg) (v : Nat) (hr : a.inRange) :
    (a.as_8 = some v → decode8 a.shape v = some a) ∧
    ((∀ h t, a ≠ .TNewLiteral h t) → a.as_16 = some v → decode16 a.shape v = some a) := by
  constructor
  · intro ha
    cases a with
    | None =>
      obtain rfl : (0 : Nat) = v := by simpa [IRArg.as_8] using ha
      rfl
    | Slot slot =>
      obtain rfl : slot = v := by simpa [IRArg.as_8] using ha
      rfl
    | Upvalue uv =>
      obtain rfl : uv = v := by simpa [IRArg.as_8] using ha
      rfl
    | Literal lit =>
      simp only [IRArg.as_8] at ha
      by_cases hg : lit > 0xFF
      · rw [if_pos hg] at ha; exact absurd ha (by simp)
      · rw [if_neg hg] at ha
        obtain rfl : lit = v := by simpa using ha
        rfl
    | SignedLiteral slit => simp [IRArg.as_8] at ha
    | Prim prim =>
      cases prim <;>
        · obtain rfl := by simpa [IRArg.as_8] using ha
          rfl
    | TNewLiteral hash tab => simp [IRArg.as_8] at ha
    | Num num =>
      simp only [IRArg.as_8] at ha
      by_cases hg : num > 0xFF
      · rw [if_pos hg] at ha; exact absurd ha (by simp)
      · rw [if_neg hg] at ha
        obtain rfl : num = v := by simpa using ha
        rfl
    | Str str =>
      simp only [IRArg.as_8] at ha
      by_cases hg : str > 0xFF
      · rw [if_pos hg] at ha; exact absurd ha (by simp)
      · rw [if_neg hg] at ha
        obtain rfl : str = v := by simpa using ha
        rfl
    | Tab tab =>
      simp only [IRArg.as_8] at ha
      by_cases hg : tab > 0xFF
      · rw [if_pos hg] at ha; exact absurd ha (by simp)
      · rw [if_neg hg] at ha
        obtain rfl : tab = v := by simpa using ha
        rfl
    | Func func =>
      simp only [IRArg.as_8] at ha
      by_cases hg : func > 0xFF
      · rw [if_pos hg] at ha; exact absurd ha (by simp)
      · rw [if_neg hg] at ha
        obtain rfl : func = v := by simpa using ha
        rfl
    | CData cdata =>
      simp only [IRArg.as_8] at ha
      by_cases hg : cdata > 0xFF
      · rw [if_pos hg] at ha; exact absurd ha (by simp)
      · rw [if_neg hg] at ha
        obtain rfl : cdata = v := by simpa using ha
        rfl
    | Jump label => simp [IRArg.as_8] at ha
    | JumpLiteral offset => simp [IRArg.as_8] at ha
  · intro hne ha
    cases a with
    | None =>
      obtain rfl : (0 : Nat) = v := by simpa [IRArg.as_16] using ha
      rfl
    | Slot slot =>
      obtain rfl : slot = v := by simpa [IRArg.as_16] using ha
      rfl
    | Upvalue uv =>
      obtain rfl : uv = v := by simpa [IRArg.as_16] using ha
      rfl
    | Literal lit =>
      obtain rfl : lit = v := by simpa [IRArg.as_16] using ha
      rfl
    | SignedLiteral slit =>
      simp only [IRArg.as_16, Option.some.injEq] at ha
      simp only [IRArg.inRange] at hr
      simp only [IRArg.shape, decode16, if_pos, Option.some.injEq,
        IRArg.SignedLiteral.injEq, reduceIte]
      by_cases hv : v < 32768
      · rw [if_pos hv]; omega
      · rw [if_neg hv]; omega
    | Prim prim =>
      cases prim <;>
        · obtain rfl := by simpa [IRArg.as_16] using ha
          rfl
    | TNewLiteral hash tab => exact absurd rfl (hne hash tab)
    | Num num =>
      obtain rfl : num = v := by simpa [IRArg.as_16] using ha
      rfl
    | Str str =>
      obtain rfl : str = v := by simpa [IRArg.as_16] using ha
      rfl
    | Tab tab =>
      obtain rfl : tab = v := by simpa [IRArg.as_16] using ha
      rfl
    | Func func =>
      obtain rfl : func = v := by simpa [IRArg.as_16] using ha
      rfl
    | CData cdata =>
      obtain rfl : cdata = v := by simpa [IRArg.as_16] using ha
      rfl
    | Jump label => simp [IRArg.as_16] at ha
    | JumpLiteral offset =>
      obtain rfl : offset = v := by simpa [IRArg.as_16] using ha
      rfl

/-- C9 witness: the amended theorem applied to the in-range operand
Literal 300 and its two encodings: 8-bit narrowing of 300 would lose
bits, and indeed fails; 16-bit narrowing succeeds and decodes back. -/
theorem claim_C9_witness :
    (IRArg.Literal 300).inRange ∧
    ((IRArg.Literal 300).as_8 = some 300 → decode8 (IRArg.Literal 300).shape 300
        = some (.Literal 300)) ∧
    ((∀ h t, IRArg.Literal 300 ≠ .TNewLiteral h t) →
      (IRArg.Literal 300).as_16 = some 300 →
      decode16 (IRArg.Literal 300).shape 300 = some (.Literal 300)) :=
  ⟨by simp [IRArg.inRange],
   (claim_C9_narrowing_exact (.Literal 300) 300 (by simp [IRArg.inRange])).1,
   (claim_C9_narrowing_exact (.Literal 300) 300 (by simp [IRArg.inRange])).2⟩

end Lkqlc
